import Mathlib

/-
Verification development for the zoom-middleware repository.

Shallow embedding of the core resilient-integration pipeline:
the Streaming Connection Manager (src/services/zoomWebSocketService.ts),
the Rate-Limited Dispatcher (src/services/rateLimit.ts),
the Extraction Fallback Chain (src/services/extractionService.ts and the
Gemini extractor), the Event Processor's post-extraction branch
(src/controllers/zoomEventController.ts), and the Token Provider
(zoomAuthService).  Timers, sockets and promise resolution are modelled as
explicit state plus an event alphabet; each external event is atomic, which
matches the single-threaded event-loop execution of the source.
-/

namespace ZoomMiddleware

/-! ### Streaming Connection Manager (src/services/zoomWebSocketService.ts)

State of the `ZoomWebSocketService` singleton restricted to the fields the
reconnect logic reads and writes: `reconnectAttempts`, the pending reconnect
timer (`reconnectTimer`), the socket handle (`ws`), the ping interval and a
count of "Maximum reconnection attempts reached, giving up" fatal reports.
`isConnecting` is not modelled: every event below is atomic, so no two
`initialize` calls can overlap (the guard is only observable under overlap).
-/

structure WsState where
  reconnectAttempts : Nat
  timerSet : Bool
  socketLive : Bool
  pingSet : Bool
  fatalReports : Nat
deriving DecidableEq, Repr

/-- `MAX_RECONNECT_ATTEMPTS` from the source. -/
def MAX_RECONNECT_ATTEMPTS : Nat := 10

/-- `cleanup()`: clears the ping interval, closes and drops the socket. -/
def wsCleanup (s : WsState) : WsState :=
  { s with pingSet := false, socketLive := false }

/-- `scheduleReconnect()`: clears any pending timer, increments
`reconnectAttempts`; past the cap it logs the fatal "giving up" report and
schedules nothing, otherwise it arms the reconnect timer. -/
def scheduleReconnect (s : WsState) : WsState :=
  if s.reconnectAttempts + 1 > MAX_RECONNECT_ATTEMPTS then
    { s with reconnectAttempts := s.reconnectAttempts + 1, timerSet := false,
             fatalReports := s.fatalReports + 1 }
  else
    { s with reconnectAttempts := s.reconnectAttempts + 1, timerSet := true }

/-- `initialize()`: with `tokenOk = true` the token fetch and the WebSocket
constructor succeed, so any previous socket is cleaned up, a fresh socket is
installed and `reconnectAttempts` is reset to 0 (end of the `try` block);
with `tokenOk = false` the `catch` block runs `scheduleReconnect()`. -/
def wsInit (s : WsState) (tokenOk : Bool) : WsState :=
  if tokenOk then
    { (if s.socketLive then wsCleanup s else s) with
        socketLive := true, reconnectAttempts := 0 }
  else
    scheduleReconnect s

/-- External events driving the manager: the socket's `close` event
(a connection drop), the socket's `open` event (handshake success), and the
reconnect timer firing (which calls `initialize()` with the given token-fetch
outcome). -/
inductive WsEvent where
  | closeEvt
  | openEvt
  | timerFire (tokenOk : Bool)
deriving DecidableEq, Repr

/-- An event can occur only when its source exists: socket callbacks need a
live socket, the timer callback needs an armed timer. -/
def wsEnabled (s : WsState) : WsEvent → Bool
  | .closeEvt => s.socketLive
  | .openEvt => s.socketLive
  | .timerFire _ => s.timerSet

/-- One event-loop turn: `close` runs `cleanup()` then `scheduleReconnect()`;
`open` starts the ping interval; the timer fires, is consumed, and calls
`initialize()`. -/
def wsStep (s : WsState) : WsEvent → WsState
  | .closeEvt => scheduleReconnect (wsCleanup s)
  | .openEvt => { s with pingSet := true }
  | .timerFire tokenOk => wsInit { s with timerSet := false } tokenOk

/-- Run a sequence of events. -/
def wsRun (s : WsState) : List WsEvent → WsState
  | [] => s
  | e :: es => wsRun (wsStep s e) es

/-- A sequence of events is valid when each event is enabled in the state it
occurs in. -/
def wsValid (s : WsState) : List WsEvent → Bool
  | [] => true
  | e :: es => wsEnabled s e && wsValid (wsStep s e) es

/-- Start state: the service has completed its first `initialize()` and the
connection is established (live socket, ping running, counter 0). -/
def wsStart : WsState := ⟨0, false, true, true, 0⟩

/-- Inductive invariant of the reconnect circuit breaker. -/
def wsInv (s : WsState) : Prop :=
  s.reconnectAttempts ≤ MAX_RECONNECT_ATTEMPTS + 1 ∧
  s.fatalReports =
    (if s.reconnectAttempts = MAX_RECONNECT_ATTEMPTS + 1 then 1 else 0) ∧
  (s.reconnectAttempts = MAX_RECONNECT_ATTEMPTS + 1 →
    s.timerSet = false ∧ s.socketLive = false) ∧
  (s.timerSet = true → s.socketLive = false)

/-! ### Reconnect delay (scheduleReconnect, the backoff computation)

`const delay = Math.min(RECONNECT_INTERVAL * Math.pow(1.5, attempts - 1),
60000) * (0.9 + Math.random() * 0.2)`, modelled over the rationals with the
`Math.random()` draw `r` as a parameter in `[0, 1]`. -/

/-- `RECONNECT_INTERVAL` from the source (base delay, milliseconds). -/
def RECONNECT_INTERVAL : ℚ := 5000

/-- The `60000` cap (max 60 seconds) in `scheduleReconnect`. -/
def MAX_RECONNECT_DELAY : ℚ := 60000

/-- The jitter multiplier `0.9 + r * 0.2` for a draw `r` of `Math.random()`. -/
def jitterFactor (r : ℚ) : ℚ := 9 / 10 + r * (2 / 10)

/-- The delay `scheduleReconnect` computes at `attempt` (1-indexed). -/
def reconnectDelay (attempt : Nat) (r : ℚ) : ℚ :=
  min (RECONNECT_INTERVAL * (3 / 2 : ℚ) ^ (attempt - 1)) MAX_RECONNECT_DELAY *
    jitterFactor r

/-! ### Rate-Limited Dispatcher queue (src/services/rateLimit.ts)

`execute` pushes the task onto `this.queue` and, when no drain loop is
running, starts `processQueue`; `processQueue` guards on `this.processing`,
sets it, and repeatedly shifts the front task and awaits it until the queue
is empty.  A `work` event is one iteration of that drain loop (running one
task to completion, or observing the empty queue and clearing the flag). -/

structure DispatcherState where
  pending : List String
  processing : Bool
  started : List String
deriving DecidableEq, Repr

inductive DispatchEvent where
  | submit (label : String)
  | work
deriving DecidableEq, Repr

/-- `submit l` is `execute(fn, l)`: append and ensure a drain loop runs
(`processing` becomes true whether or not one was already running — the
`if (this.processing || ...) return` guard means no second loop starts).
`work` is one iteration of the single drain loop. -/
def dispatchStep (s : DispatcherState) : DispatchEvent → DispatcherState
  | .submit l =>
    { pending := s.pending ++ [l], processing := true, started := s.started }
  | .work =>
    if s.processing then
      match s.pending with
      | [] => { s with processing := false }
      | l :: rest =>
        { pending := rest, processing := true, started := s.started ++ [l] }
    else s

def dispatchRun (s : DispatcherState) : List DispatchEvent → DispatcherState
  | [] => s
  | e :: es => dispatchRun (dispatchStep s e) es

/-- The labels submitted by an event sequence, in submission order. -/
def submittedOf (evs : List DispatchEvent) : List String :=
  evs.filterMap fun e =>
    match e with
    | .submit l => some l
    | .work => none

def dispatchStart : DispatcherState := ⟨[], false, []⟩

/-! ### Rate-Limited Dispatcher retry loop (execute, lines 49-67)

`while (retries <= maxRetries) try { await waitForAvailableSlot(); resolve
(await fn()) } catch (e) { if (status 429 && retries < maxRetries) { retries
++; sleep(retryDelayMs * retries) } else reject(e) }`.  `behav i` is the
outcome of the (i+1)-th invocation of `fn`; `budget` is the remaining retry
allowance `maxRetries - retries`, so the source guard `retries < maxRetries`
is `budget > 0`. -/

inductive CallOutcome where
  | ok (v : Nat)
  | throttled
  | fatal
deriving DecidableEq, Repr

inductive TaskError where
  | throttled
  | fatal
deriving DecidableEq, Repr

structure RetryResult where
  result : Except TaskError Nat
  invocations : Nat
  delays : List Nat
deriving Repr

def retryGo (behav : Nat → CallOutcome) (retryDelayMs : Nat) :
    Nat → Nat → RetryResult
  | budget, retries =>
    match behav retries, budget with
    | .ok v, _ => ⟨.ok v, 1, []⟩
    | .fatal, _ => ⟨.error .fatal, 1, []⟩
    | .throttled, 0 => ⟨.error .throttled, 1, []⟩
    | .throttled, b + 1 =>
      let r := retryGo behav retryDelayMs b (retries + 1)
      ⟨r.result, r.invocations + 1, retryDelayMs * (retries + 1) :: r.delays⟩

/-- The retry loop of one queued task, entered with `retries = 0` and retry
allowance `maxRetries`. -/
def retryLoop (behav : Nat → CallOutcome) (maxRetries retryDelayMs : Nat) :
    RetryResult :=
  retryGo behav retryDelayMs maxRetries 0

/-- A task behaviour that is throttled on its first two invocations and then
succeeds (the claim's scenario). -/
def throttleTwice : Nat → CallOutcome :=
  fun i => if i < 2 then .throttled else .ok 42

/-! ### Rate window (canMakeRequest / waitForAvailableSlot, lines 30-44)

`canMakeRequest` filters `requestTimestamps` down to those with
`now - timestamp < timeWindowMs` and compares the count against
`maxRequests`; on success `waitForAvailableSlot` pushes the current time.
`rlStep` is one successful check-then-push (or a failed check); `rlRun`
processes a nondecreasing list of poll times, returning the final timestamp
list and the times at which operations were started. -/

/-- The filter predicate of `canMakeRequest` at current time `now`. -/
def rlYoung (timeWindowMs now ts : Nat) : Bool :=
  decide (now - ts < timeWindowMs)

/-- One poll at time `now`: filter the recorded timestamps, start (and
record) the operation when the window has capacity. -/
def rlStep (maxRequests timeWindowMs : Nat) (st : List Nat) (now : Nat) :
    List Nat × Bool :=
  let st' := st.filter (rlYoung timeWindowMs now)
  if st'.length < maxRequests then (st' ++ [now], true) else (st', false)

def rlRun (maxRequests timeWindowMs : Nat) :
    List Nat → List Nat → List Nat → List Nat × List Nat
  | st, starts, [] => (st, starts)
  | st, starts, t :: ts =>
    rlRun maxRequests timeWindowMs (rlStep maxRequests timeWindowMs st t).1
      (if (rlStep maxRequests timeWindowMs st t).2 then starts ++ [t]
       else starts) ts

/-- Membership of a start time in the sliding window `(a, a + W]`. -/
def inWindow (timeWindowMs a s : Nat) : Bool :=
  decide (a < s) && decide (s ≤ a + timeWindowMs)

/-! ### Extraction Fallback Chain (src/services/extractionService.ts)

`extractInformationWithZoom` tries the Zoom-transcription strategy and, only
when it throws, falls back to `extractInformationWithLemur`; an error of the
final strategy propagates out.  Each strategy is modelled by its outcome: an
`Except` of an error message or a fact list.  The source chain has the two
strategies `[zoom, lemur]`; `chainFrom` is the same fallback fold for a
chain given as head strategy plus remaining strategies. -/

structure ExtractedInfo where
  project : String
  character : String
  task : String
  context : String
  confidence : ℚ
deriving DecidableEq, Repr

/-- Outcome of one extraction strategy: the facts it returned, or the error
it threw. -/
abbrev StratOutcome := Except String (List ExtractedInfo)

/-- The fallback fold: return the current strategy's result if it did not
throw; otherwise move to the next strategy; the last strategy's error
propagates. -/
def chainFrom : StratOutcome → List StratOutcome → StratOutcome
  | s, [] => s
  | .ok r, _ :: _ => .ok r
  | .error _, s' :: rest => chainFrom s' rest

/-- How many strategies the fold invokes (the head counts as one). -/
def chainInvoked : StratOutcome → List StratOutcome → Nat
  | _, [] => 1
  | .ok _, _ :: _ => 1
  | .error _, s' :: rest => chainInvoked s' rest + 1

/-! ### Gemini extractor mapping (extractInformationWithGemini)

After parsing and validating the model response, the extractor builds one
`ExtractedInfo` per (character, task) pair, skipping characters with no
tasks; `character.context || default` uses JS truthiness, so an empty or
missing context falls back to the generated string; `confidence` is 0.95. -/

structure GeminiChar where
  name : String
  tasks : List String
  context : Option String
deriving DecidableEq, Repr

/-- JS `character.context || fallback`. -/
def contextOrDefault (c : Option String) (fallback : String) : String :=
  match c with
  | none => fallback
  | some s => if s = "" then fallback else s

def factsForChar (project : String) (c : GeminiChar) : List ExtractedInfo :=
  if c.tasks.length = 0 then []
  else
    c.tasks.map fun task =>
      ⟨project, c.name, task,
        contextOrDefault c.context (task ++ " for character " ++ c.name),
        95 / 100⟩

/-- The fact list built from the validated characters, in source order. -/
def geminiFacts (project : String) (chars : List GeminiChar) :
    List ExtractedInfo :=
  (chars.map (factsForChar project)).flatten

/-! ### Event Processor, post-extraction branch
(handleRecordingCompleted, lines 181-190)

`if (extractedInfos.length === 0) { logger.warn(...); return; }` — an empty
extraction result stops processing normally and issues no dispatch;
otherwise the infos go to `processExtractedInfoWithRateLimit`. -/

inductive RecordingOutcome where
  | noFacts
  | dispatched (infos : List ExtractedInfo)
deriving DecidableEq, Repr

def afterExtraction (infos : List ExtractedInfo) : RecordingOutcome :=
  if infos.length = 0 then .noFacts else .dispatched infos

/-! ### Inbound frame handling (setupEventHandlers, message callback)

The whole callback body sits in a `try`/`catch`, so a frame whose
`JSON.parse` fails is logged and dropped (`none` below).  A parsed frame
with `module === 'build_connection' && success === false` is logged and
dropped.  Otherwise `processZoomEvent` is invoked exactly when
`eventData.event_type || eventData.event` is truthy (an absent field is
`undefined`, an empty string is falsy). -/

structure WsMessage where
  moduleField : Option String
  successField : Option Bool
  eventTypeField : Option String
  eventField : Option String
deriving DecidableEq, Repr

/-- JS truthiness of an optional string field. -/
def truthyStr : Option String → Bool
  | none => false
  | some s => !(s == "")

inductive FrameAction where
  | droppedMalformed
  | droppedConnError
  | forwarded
  | ignoredNonEvent
deriving DecidableEq, Repr

def handleWsMessage : Option WsMessage → FrameAction
  | none => .droppedMalformed
  | some m =>
    if m.moduleField = some "build_connection" ∧ m.successField = some false
    then .droppedConnError
    else if truthyStr m.eventTypeField || truthyStr m.eventField then
      .forwarded
    else .ignoredNonEvent

/-! ### Token Provider (zoomAuthService: getAccessToken / invalidateToken)

Module state `accessToken` (empty string when absent) and `tokenExpiry`
(epoch seconds).  `getAccessToken` returns the cached token when
`accessToken && tokenExpiry > currentTime + 60`; otherwise it contacts the
token endpoint: an unreachable endpoint or a response without
`access_token` throws (leaving the cache untouched), and a good response
stores the token with expiry `now + expires_in`. -/

structure TokenState where
  accessToken : String
  tokenExpiry : Nat
deriving DecidableEq, Repr

inductive TokenEndpoint where
  | unreachable
  | noToken
  | token (tok : String) (expiresIn : Nat)
deriving DecidableEq, Repr

structure GetTokenResult where
  result : Except String String
  state : TokenState
  contacted : Bool
deriving Repr

def getAccessToken (st : TokenState) (now : Nat) (ep : TokenEndpoint) :
    GetTokenResult :=
  if st.accessToken ≠ "" ∧ st.tokenExpiry > now + 60 then
    ⟨.ok st.accessToken, st, false⟩
  else
    match ep with
    | .unreachable =>
      ⟨.error "Failed to obtain Zoom API access token", st, true⟩
    | .noToken =>
      ⟨.error "No access token returned from Zoom API", st, true⟩
    | .token tok expiresIn =>
      ⟨.ok tok, ⟨tok, now + expiresIn⟩, true⟩

def invalidateToken (_st : TokenState) : TokenState := ⟨"", 0⟩

theorem wsInv_start : wsInv wsStart := by
  simp [wsInv, wsStart, MAX_RECONNECT_ATTEMPTS]

theorem wsInv_step (s : WsState) (e : WsEvent) (hinv : wsInv s)
    (he : wsEnabled s e = true) : wsInv (wsStep s e) := by
  obtain ⟨a, t, l, p, f⟩ := s
  obtain ⟨h1, h2, h3, h4⟩ := hinv
  simp only [MAX_RECONNECT_ATTEMPTS] at *
  cases e with
  | closeEvt =>
    simp only [wsEnabled] at he
    subst he
    have ha : a ≠ 11 := fun h => by simpa using (h3 h).2
    rw [if_neg (show ¬ a = 10 + 1 by omega)] at h2
    simp only [wsStep, wsCleanup, scheduleReconnect, wsInv,
      MAX_RECONNECT_ATTEMPTS]
    by_cases hgt : a + 1 > 10
    · rw [if_pos hgt]
      dsimp only
      refine ⟨by omega, ?_, fun _ => ⟨rfl, rfl⟩, by simp⟩
      rw [if_pos (show a + 1 = 10 + 1 by omega)]
      omega
    · rw [if_neg hgt]
      dsimp only
      refine ⟨by omega, ?_, ?_, fun _ => rfl⟩
      · rw [if_neg (show ¬ a + 1 = 10 + 1 by omega)]
        omega
      · intro h
        exact absurd h (by omega)
  | openEvt =>
    simp only [wsEnabled] at he
    subst he
    have ht : t = false := by
      cases t
      · rfl
      · simpa using h4 rfl
    subst ht
    have ha : a ≠ 11 := fun h => by simpa using (h3 h).2
    simp only [wsStep, wsInv, MAX_RECONNECT_ATTEMPTS]
    refine ⟨h1, h2, fun h => absurd h (by omega), by simp⟩
  | timerFire tokenOk =>
    simp only [wsEnabled] at he
    subst he
    have ha : a ≠ 11 := fun h => by simpa using (h3 h).1
    have hl : l = false := h4 rfl
    subst hl
    rw [if_neg (show ¬ a = 10 + 1 by omega)] at h2
    cases tokenOk with
    | true =>
      simp only [wsStep, wsInit, wsCleanup, wsInv, MAX_RECONNECT_ATTEMPTS]
      simp only [Bool.false_eq_true, if_false, if_true]
      refine ⟨by omega, ?_, ?_, by simp⟩
      · rw [if_neg (show ¬ (0 : Nat) = 10 + 1 by omega)]
        omega
      · intro h
        exact absurd h (by omega)
    | false =>
      simp only [wsStep, wsInit, scheduleReconnect, wsInv,
        MAX_RECONNECT_ATTEMPTS]
      simp only [Bool.false_eq_true, if_false]
      by_cases hgt : a + 1 > 10
      · rw [if_pos hgt]
        dsimp only
        refine ⟨by omega, ?_, fun _ => ⟨rfl, rfl⟩, by simp⟩
        rw [if_pos (show a + 1 = 10 + 1 by omega)]
        omega
      · rw [if_neg hgt]
        dsimp only
        refine ⟨by omega, ?_, ?_, fun _ => rfl⟩
        · rw [if_neg (show ¬ a + 1 = 10 + 1 by omega)]
          omega
        · intro h
          exact absurd h (by omega)

theorem wsInv_run (evs : List WsEvent) (s : WsState) (hinv : wsInv s)
    (hv : wsValid s evs = true) : wsInv (wsRun s evs) := by
  induction evs generalizing s with
  | nil => exact hinv
  | cons e es ih =>
    simp only [wsValid, Bool.and_eq_true] at hv
    exact ih (wsStep s e) (wsInv_step s e hinv hv.1) hv.2

theorem wsRun_append (s : WsState) (evs : List WsEvent) (e : WsEvent) :
    wsRun s (evs ++ [e]) = wsStep (wsRun s evs) e := by
  induction evs generalizing s with
  | nil => rfl
  | cons f fs ih => simp [wsRun, ih]

theorem wsValid_append (s : WsState) (evs : List WsEvent) (e : WsEvent)
    (hv : wsValid s (evs ++ [e]) = true) :
    wsValid s evs = true ∧ wsEnabled (wsRun s evs) e = true := by
  induction evs generalizing s with
  | nil =>
    simp only [List.nil_append, wsValid, Bool.and_eq_true] at hv
    exact ⟨rfl, hv.1⟩
  | cons f fs ih =>
    simp only [List.cons_append, wsValid, Bool.and_eq_true] at hv ⊢
    obtain ⟨h1, h2⟩ := hv
    obtain ⟨h3, h4⟩ := ih (wsStep s f) h2
    exact ⟨⟨h1, h3⟩, h4⟩

theorem wsStep_attempts (s : WsState) (e : WsEvent)
    (he : wsEnabled s e = true) :
    (wsStep s e).reconnectAttempts = s.reconnectAttempts + 1 ∨
    (wsStep s e).reconnectAttempts = s.reconnectAttempts ∨
    (e = .timerFire true ∧ (wsStep s e).reconnectAttempts = 0) := by
  obtain ⟨a, t, l, p, f⟩ := s
  cases e with
  | closeEvt =>
    left
    simp only [wsStep, wsCleanup, scheduleReconnect]
    split_ifs <;> rfl
  | openEvt => right; left; rfl
  | timerFire tokenOk =>
    cases tokenOk with
    | true =>
      right; right
      refine ⟨rfl, ?_⟩
      simp [wsStep, wsInit, wsCleanup]
    | false =>
      left
      simp only [wsStep, wsInit, scheduleReconnect, Bool.false_eq_true,
        if_false]
      split_ifs <;> rfl

/-- C1 (amended).  Along every valid event sequence from the connected start
state: the fatal "giving up" report is issued at most once; once the attempt
counter exceeds `MAX_RECONNECT_ATTEMPTS = 10` no reconnect timer is armed and
no socket exists (no new connection attempt is ever scheduled) and the fatal
report has been issued exactly once; and each further event either increments
the counter by one, leaves it unchanged, or is a successful `initialize()`
(timer firing with a good token) which resets it to 0.  The reset happens at
successful socket construction inside `initialize()`, not upon reaching Open
as the original claim states. -/
theorem connectionManager_attempt_counter (evs : List WsEvent)
    (hv : wsValid wsStart evs = true) :
    (wsRun wsStart evs).fatalReports ≤ 1 ∧
    ((wsRun wsStart evs).reconnectAttempts > MAX_RECONNECT_ATTEMPTS →
      (wsRun wsStart evs).timerSet = false ∧
      (wsRun wsStart evs).socketLive = false ∧
      (wsRun wsStart evs).fatalReports = 1) ∧
    (∀ e, wsValid wsStart (evs ++ [e]) = true →
      (wsRun wsStart (evs ++ [e])).reconnectAttempts =
        (wsRun wsStart evs).reconnectAttempts + 1 ∨
      (wsRun wsStart (evs ++ [e])).reconnectAttempts =
        (wsRun wsStart evs).reconnectAttempts ∨
      (e = .timerFire true ∧
        (wsRun wsStart (evs ++ [e])).reconnectAttempts = 0)) := by
  have hinv := wsInv_run evs wsStart wsInv_start hv
  obtain ⟨h1, h2, h3, h4⟩ := hinv
  refine ⟨?_, ?_, ?_⟩
  · rw [h2]
    split_ifs <;> omega
  · intro hgt
    have : (wsRun wsStart evs).reconnectAttempts = MAX_RECONNECT_ATTEMPTS + 1 := by
      omega
    exact ⟨(h3 this).1, (h3 this).2, by simp [h2, this]⟩
  · intro e hve
    have hen := (wsValid_append wsStart evs e hve).2
    rw [wsRun_append]
    exact wsStep_attempts (wsRun wsStart evs) e hen

/-- C1 witness: the theorem applied to the single-drop trace. -/
theorem connectionManager_attempt_counter_witness :
    wsValid wsStart [WsEvent.closeEvt] = true ∧
    (wsRun wsStart [WsEvent.closeEvt]).fatalReports ≤ 1 :=
  ⟨by decide, (connectionManager_attempt_counter [WsEvent.closeEvt]
    (by decide)).1⟩

/-- C1 counterexample to the claim as stated: the two-event run
"connection drops, reconnect timer fires and `initialize()` succeeds" is
valid, contains no Open event at all, never exceeds `maxAttempts`, and yet
the attempt counter drops from 1 back to 0 — so the counter is not monotone
until a successful Open: the code resets it when `initialize()` constructs a
socket, before (and regardless of whether) the connection reaches Open. -/
theorem connectionManager_reset_without_open :
    wsValid wsStart [WsEvent.closeEvt, WsEvent.timerFire true] = true ∧
    (wsRun wsStart [WsEvent.closeEvt]).reconnectAttempts = 1 ∧
    (wsRun wsStart [WsEvent.closeEvt, WsEvent.timerFire true]).reconnectAttempts
      = 0 ∧
    (WsEvent.closeEvt ∉ ([WsEvent.openEvt] : List WsEvent)) ∧
    (WsEvent.timerFire true ≠ WsEvent.openEvt) ∧
    (WsEvent.closeEvt ≠ WsEvent.openEvt) ∧
    MAX_RECONNECT_ATTEMPTS = 10 ∧
    (wsRun wsStart [WsEvent.closeEvt]).reconnectAttempts ≤
      MAX_RECONNECT_ATTEMPTS := by
  decide

theorem cappedBackoff_nonneg (n : Nat) :
    (0 : ℚ) ≤
      min (RECONNECT_INTERVAL * (3 / 2 : ℚ) ^ (n - 1)) MAX_RECONNECT_DELAY :=
  le_min (mul_nonneg (by norm_num [RECONNECT_INTERVAL]) (by positivity))
    (by norm_num [MAX_RECONNECT_DELAY])

/-- C2 (amended).  For every attempt `n` with `1 ≤ n ≤ maxAttempts` and
every jitter draw `r` in `[0, 1]`, the computed delay lies between
`min(baseDelay * 1.5^(n-1), maxDelay) * 0.9` and
`min(maxDelay, baseDelay * 1.5^(n-1)) * 1.1`: the lower bound, like the
upper one, carries the `maxDelay` cap, which the original claim's lower
bound omits. -/
theorem reconnectDelay_bounds (n : Nat) (r : ℚ) (hn : 1 ≤ n)
    (hmax : n ≤ MAX_RECONNECT_ATTEMPTS) (hr0 : 0 ≤ r) (hr1 : r ≤ 1) :
    min (RECONNECT_INTERVAL * (3 / 2 : ℚ) ^ (n - 1)) MAX_RECONNECT_DELAY *
        (9 / 10) ≤ reconnectDelay n r ∧
    reconnectDelay n r ≤
      min MAX_RECONNECT_DELAY (RECONNECT_INTERVAL * (3 / 2 : ℚ) ^ (n - 1)) *
        (11 / 10) := by
  have hM := cappedBackoff_nonneg n
  have hj0 : (9 / 10 : ℚ) ≤ jitterFactor r := by
    have h := mul_nonneg hr0 (show (0 : ℚ) ≤ 2 / 10 by norm_num)
    simp only [jitterFactor]
    linarith
  have hj1 : jitterFactor r ≤ 11 / 10 := by
    have h := mul_le_mul_of_nonneg_right hr1
      (show (0 : ℚ) ≤ 2 / 10 by norm_num)
    simp only [jitterFactor]
    linarith
  simp only [reconnectDelay]
  constructor
  · exact mul_le_mul_of_nonneg_left hj0 hM
  · rw [min_comm]
    rw [min_comm] at hM
    exact mul_le_mul_of_nonneg_left hj1 hM

/-- C2 witness: the bounds at attempt 1 with jitter draw 0. -/
theorem reconnectDelay_bounds_witness :
    (1 ≤ 1 ∧ 1 ≤ MAX_RECONNECT_ATTEMPTS ∧ (0 : ℚ) ≤ 0 ∧ (0 : ℚ) ≤ 1) ∧
    min (RECONNECT_INTERVAL * (3 / 2 : ℚ) ^ (1 - 1)) MAX_RECONNECT_DELAY *
        (9 / 10) ≤ reconnectDelay 1 0 :=
  ⟨⟨le_refl 1, by norm_num [MAX_RECONNECT_ATTEMPTS], le_refl 0, by norm_num⟩,
    (reconnectDelay_bounds 1 0 (le_refl 1)
      (by norm_num [MAX_RECONNECT_ATTEMPTS]) (le_refl 0) (by norm_num)).1⟩

/-- C2 counterexample to the claim as stated: at attempt `n = 8` (which is
within `maxAttempts = 10`) with the admissible jitter draw `1/2` (jitter
factor exactly 1), the computed delay is 60000 ms while the claimed
uncapped lower bound `baseDelay * 1.5^7 * 0.9 = 76886.71875` ms exceeds it:
the lower bound must also be capped by `maxDelay`. -/
theorem reconnectDelay_uncapped_lower_bound_fails :
    1 ≤ 8 ∧ 8 ≤ MAX_RECONNECT_ATTEMPTS ∧
    (0 : ℚ) ≤ 1 / 2 ∧ (1 / 2 : ℚ) ≤ 1 ∧
    reconnectDelay 8 (1 / 2) = 60000 ∧
    ¬ (RECONNECT_INTERVAL * (3 / 2 : ℚ) ^ (8 - 1) * (9 / 10) ≤
        reconnectDelay 8 (1 / 2)) := by
  refine ⟨by norm_num, by norm_num [MAX_RECONNECT_ATTEMPTS], by norm_num,
    by norm_num, ?_, ?_⟩ <;>
    norm_num [reconnectDelay, RECONNECT_INTERVAL, MAX_RECONNECT_DELAY,
      jitterFactor, min_def]

theorem dispatchRun_partition (evs : List DispatchEvent) :
    ∀ s : DispatcherState,
      (dispatchRun s evs).started ++ (dispatchRun s evs).pending =
        s.started ++ s.pending ++ submittedOf evs := by
  induction evs with
  | nil => intro s; simp [dispatchRun, submittedOf]
  | cons e es ih =>
    intro s
    have hrun : dispatchRun s (e :: es) = dispatchRun (dispatchStep s e) es :=
      rfl
    rw [hrun, ih (dispatchStep s e)]
    cases e with
    | submit l =>
      simp [dispatchStep, submittedOf, List.append_assoc]
    | work =>
      have hsub : submittedOf (DispatchEvent.work :: es) = submittedOf es := by
        simp [submittedOf]
      rw [hsub]
      obtain ⟨pnd, prc, str⟩ := s
      simp only [dispatchStep]
      split_ifs with hp
      · cases pnd <;> simp [List.append_assoc]
      · rfl

/-- C3.  Along every event sequence, the labels of the operations the single
drain loop has started, followed by the labels still queued, equal the
submitted labels in submission order — so operations start strictly in FIFO
submission order, none dropped, duplicated or reordered, and a task enqueued
while the worker is draining is picked up by that same loop (the
`processing` flag never admits a second loop).  In particular the submission
sequence A, B, A is started as A (first), B (first), A (second). -/
theorem dispatcher_fifo_order (evs : List DispatchEvent) :
    (dispatchRun dispatchStart evs).started ++
        (dispatchRun dispatchStart evs).pending = submittedOf evs ∧
    (dispatchRun dispatchStart
        [DispatchEvent.submit "A", DispatchEvent.submit "B",
         DispatchEvent.submit "A", DispatchEvent.work, DispatchEvent.work,
         DispatchEvent.work]).started = ["A", "B", "A"] := by
  refine ⟨?_, rfl⟩
  have h := dispatchRun_partition evs dispatchStart
  simpa [dispatchStart] using h

theorem retryGo_invocations_pos (behav : Nat → CallOutcome)
    (d budget retries : Nat) :
    1 ≤ (retryGo behav d budget retries).invocations := by
  cases budget <;> cases hb : behav retries <;> simp [retryGo, hb]

theorem retryGo_invocations_le (behav : Nat → CallOutcome) (d : Nat) :
    ∀ budget retries, (retryGo behav d budget retries).invocations ≤
      budget + 1 := by
  intro budget
  induction budget with
  | zero => intro retries; cases hb : behav retries <;> simp [retryGo, hb]
  | succ b ih =>
    intro retries
    cases hb : behav retries <;> simp [retryGo, hb]
    have h := ih (retries + 1)
    omega

theorem retryGo_delays (behav : Nat → CallOutcome) (d : Nat) :
    ∀ budget retries, (retryGo behav d budget retries).delays =
      (List.range ((retryGo behav d budget retries).invocations - 1)).map
        (fun k => d * (retries + k + 1)) := by
  intro budget
  induction budget with
  | zero => intro retries; cases hb : behav retries <;> simp [retryGo, hb]
  | succ b ih =>
    intro retries
    cases hb : behav retries with
    | ok v => simp [retryGo, hb]
    | fatal => simp [retryGo, hb]
    | throttled =>
      have hpos := retryGo_invocations_pos behav d b (retries + 1)
      obtain ⟨m, hm⟩ :
          ∃ m, (retryGo behav d b (retries + 1)).invocations = m + 1 :=
        ⟨(retryGo behav d b (retries + 1)).invocations - 1, by omega⟩
      rw [show retryGo behav d (b + 1) retries =
            ⟨(retryGo behav d b (retries + 1)).result,
             (retryGo behav d b (retries + 1)).invocations + 1,
             d * (retries + 1) ::
               (retryGo behav d b (retries + 1)).delays⟩ from by
        simp [retryGo, hb]]
      dsimp only
      rw [ih (retries + 1), hm]
      simp only [Nat.add_sub_cancel, Nat.succ_sub_one]
      rw [List.range_succ_eq_map]
      simp only [List.map_cons, List.map_map]
      refine congrArg₂ List.cons (by norm_num) ?_
      apply List.map_congr_left
      intro k _
      simp only [Function.comp_apply]
      congr 1
      omega

theorem retryGo_all_throttled (behav : Nat → CallOutcome) (d : Nat)
    (hb : ∀ i, behav i = CallOutcome.throttled) :
    ∀ budget retries,
      (retryGo behav d budget retries).result =
        Except.error TaskError.throttled ∧
      (retryGo behav d budget retries).invocations = budget + 1 := by
  intro budget
  induction budget with
  | zero => intro retries; simp [retryGo, hb retries]
  | succ b ih =>
    intro retries
    have h := ih (retries + 1)
    simp [retryGo, hb retries, h.1, h.2]

/-- C4.  The retry loop of a queued task: the throttled-twice-then-success
scenario with 2 retries allowed yields success after exactly 3 invocations
with the strictly increasing delays `d*1 < d*2`; in general the k-th
recorded retry delay is `retryDelayMs * k` (linear backoff), at most
`maxRetries` retries happen beyond the first invocation, a non-throttling
failure is surfaced immediately as the task's error, and a task throttled on
every invocation is surfaced as a throttled error after exactly
`maxRetries + 1` invocations. -/
theorem dispatcher_retry_linear_backoff (d : Nat) (hd : 0 < d) :
    retryLoop throttleTwice 2 d = ⟨Except.ok 42, 3, [d * 1, d * 2]⟩ ∧
    d * 1 < d * 2 ∧
    (∀ behav maxRetries,
      (retryLoop behav maxRetries d).delays =
        (List.range ((retryLoop behav maxRetries d).invocations - 1)).map
          (fun k => d * (k + 1))) ∧
    (∀ behav maxRetries,
      (retryLoop behav maxRetries d).invocations ≤ maxRetries + 1) ∧
    (∀ behav maxRetries, behav 0 = CallOutcome.fatal →
      (retryLoop behav maxRetries d).result =
        Except.error TaskError.fatal ∧
      (retryLoop behav maxRetries d).invocations = 1) ∧
    (∀ behav maxRetries, (∀ i, behav i = CallOutcome.throttled) →
      (retryLoop behav maxRetries d).result =
        Except.error TaskError.throttled ∧
      (retryLoop behav maxRetries d).invocations = maxRetries + 1) := by
  refine ⟨rfl, by omega, ?_, ?_, ?_, ?_⟩
  · intro behav maxRetries
    simpa using retryGo_delays behav d maxRetries 0
  · intro behav maxRetries
    exact retryGo_invocations_le behav d maxRetries 0
  · intro behav maxRetries hb
    cases maxRetries <;> simp [retryLoop, retryGo, hb]
  · intro behav maxRetries hb
    exact retryGo_all_throttled behav d hb maxRetries 0

/-- C4 witness: the theorem at the configured `retryDelayMs = 1000` of the
`clickUpRateLimiter` singleton. -/
theorem dispatcher_retry_linear_backoff_witness :
    0 < 1000 ∧
    retryLoop throttleTwice 2 1000 =
      ⟨Except.ok 42, 3, [1000 * 1, 1000 * 2]⟩ :=
  ⟨by decide, (dispatcher_retry_linear_backoff 1000 (by decide)).1⟩

theorem rlYoung_filter_compose (timeWindowMs lastT t : Nat)
    (hle : lastT ≤ t) (starts : List Nat) :
    (starts.filter (rlYoung timeWindowMs lastT)).filter
        (rlYoung timeWindowMs t) =
      starts.filter (rlYoung timeWindowMs t) := by
  rw [List.filter_filter]
  apply List.filter_congr
  intro s _
  simp only [rlYoung]
  by_cases h : t - s < timeWindowMs
  · simp only [decide_eq_true h, Bool.and_true]
    exact decide_eq_true (by omega)
  · simp [h]

theorem rlRun_window_bound (maxRequests timeWindowMs : Nat)
    (hW : 0 < timeWindowMs) :
    ∀ (times starts st : List Nat) (lastT : Nat),
      List.Chain (· ≤ ·) lastT times →
      st = starts.filter (rlYoung timeWindowMs lastT) →
      (∀ a, (starts.filter (inWindow timeWindowMs a)).length ≤ maxRequests) →
      st.length ≤ maxRequests →
      (∀ a, (((rlRun maxRequests timeWindowMs st starts times).2).filter
          (inWindow timeWindowMs a)).length ≤ maxRequests) ∧
      ((rlRun maxRequests timeWindowMs st starts times).1).length ≤
        maxRequests := by
  intro times
  induction times with
  | nil =>
    intro starts st lastT _ _ hwin hlen
    exact ⟨hwin, hlen⟩
  | cons t ts ih =>
    intro starts st lastT hchain hst hwin hlen
    rw [List.chain_cons] at hchain
    obtain ⟨hle, hchain'⟩ := hchain
    have hfilter : st.filter (rlYoung timeWindowMs t) =
        starts.filter (rlYoung timeWindowMs t) := by
      rw [hst]
      exact rlYoung_filter_compose timeWindowMs lastT t hle starts
    have hrun : rlRun maxRequests timeWindowMs st starts (t :: ts) =
        rlRun maxRequests timeWindowMs
          (rlStep maxRequests timeWindowMs st t).1
          (if (rlStep maxRequests timeWindowMs st t).2 then starts ++ [t]
           else starts) ts := rfl
    rw [hrun]
    by_cases hcap : (st.filter (rlYoung timeWindowMs t)).length < maxRequests
    · have hstep1 : (rlStep maxRequests timeWindowMs st t).1 =
          st.filter (rlYoung timeWindowMs t) ++ [t] := by
        simp only [rlStep]
        rw [if_pos hcap]
      have hstep2 : (rlStep maxRequests timeWindowMs st t).2 = true := by
        simp only [rlStep]
        rw [if_pos hcap]
      rw [hstep1, hstep2, if_pos rfl]
      apply ih (starts ++ [t]) _ t hchain'
      · rw [List.filter_append, hfilter]
        have ht : [t].filter (rlYoung timeWindowMs t) = [t] := by
          simp [rlYoung, Nat.sub_self, hW]
        rw [ht]
      · intro a
        rw [List.filter_append]
        by_cases hin : inWindow timeWindowMs a t = true
        · have hmono : (starts.filter (inWindow timeWindowMs a)).length ≤
              (starts.filter (rlYoung timeWindowMs t)).length := by
            rw [← List.countP_eq_length_filter,
              ← List.countP_eq_length_filter]
            apply List.countP_mono_left
            intro s _ hs
            simp only [inWindow, Bool.and_eq_true, decide_eq_true_eq] at hs
            simp only [inWindow, Bool.and_eq_true, decide_eq_true_eq] at hin
            simp only [rlYoung]
            exact decide_eq_true (by omega)
          rw [← hfilter] at hmono
          simp only [List.length_append]
          have hone : ([t].filter (inWindow timeWindowMs a)).length ≤ 1 :=
            List.length_filter_le _ _
          omega
        · have hzero : [t].filter (inWindow timeWindowMs a) = [] := by
            simp [List.filter_cons, hin]
          rw [hzero]
          simpa using hwin a
      · rw [List.length_append]
        simpa using hcap
    · have hstep1 : (rlStep maxRequests timeWindowMs st t).1 =
          st.filter (rlYoung timeWindowMs t) := by
        simp only [rlStep]
        rw [if_neg hcap]
      have hstep2 : (rlStep maxRequests timeWindowMs st t).2 = false := by
        simp only [rlStep]
        rw [if_neg hcap]
      rw [hstep1, hstep2, if_neg (by simp)]
      apply ih starts _ t hchain' hfilter hwin
      exact le_trans (List.length_filter_le _ _) hlen

/-- C5.  For every nondecreasing sequence of poll times, the operations the
rate limiter actually starts are such that no sliding window `(a, a + W]` of
the configured duration ever contains more than `maxRequests` of them, and
the recorded timestamp list never holds more than `maxRequests` entries
younger than the window. -/
theorem dispatcher_sliding_window (maxRequests timeWindowMs : Nat)
    (hW : 0 < timeWindowMs) (times : List Nat)
    (hmono : List.Chain (· ≤ ·) 0 times) :
    (∀ a, (((rlRun maxRequests timeWindowMs [] [] times).2).filter
        (inWindow timeWindowMs a)).length ≤ maxRequests) ∧
    ((rlRun maxRequests timeWindowMs [] [] times).1).length ≤ maxRequests :=
  rlRun_window_bound maxRequests timeWindowMs hW times [] [] 0 hmono
    (by simp) (fun a => by simp) (by simp)

/-- C5 witness: the clickUpRateLimiter configuration (3 requests per 1000
ms) on a concrete burst of five polls. -/
theorem dispatcher_sliding_window_witness :
    (0 < 1000 ∧ List.Chain (· ≤ ·) 0 [0, 0, 0, 500, 1000]) ∧
    (((rlRun 3 1000 [] [] [0, 0, 0, 500, 1000]).2).filter
        (inWindow 1000 0)).length ≤ 3 :=
  ⟨⟨by decide, by simp [List.chain_cons]⟩,
    (dispatcher_sliding_window 3 1000 (by decide) [0, 0, 0, 500, 1000]
      (by simp [List.chain_cons])).1 0⟩

theorem chainFrom_all_errors :
    ∀ (errs : List String) (e' : String) (s' : StratOutcome)
      (rest' : List StratOutcome),
      s' :: rest' = errs.map Except.error ++ [Except.error e'] →
      chainFrom s' rest' = Except.error e' := by
  intro errs
  induction errs with
  | nil =>
    intro e' s' rest' h
    simp only [List.map_nil, List.nil_append] at h
    cases h
    rfl
  | cons e0 es ih =>
    intro e' s' rest' h
    simp only [List.map_cons, List.cons_append] at h
    cases h
    cases hrest : es.map Except.error ++ [Except.error e'] with
    | nil => exact absurd hrest (by simp)
    | cons s2 rest2 =>
      simp only [chainFrom]
      exact ih e' s2 rest2 hrest.symm

theorem chainFrom_skips_after_success (pre post : List StratOutcome)
    (r : List ExtractedInfo)
    (hpre : ∀ x ∈ pre, ∃ e, x = Except.error e) :
    ∀ s rest, s :: rest = pre ++ Except.ok r :: post →
      chainFrom s rest = Except.ok r ∧
      chainInvoked s rest = pre.length + 1 := by
  induction pre with
  | nil =>
    intro s rest h
    simp only [List.nil_append] at h
    cases h
    cases post <;> simp [chainFrom, chainInvoked]
  | cons x pre' ih =>
    intro s rest h
    obtain ⟨e, hx⟩ := hpre x (by simp)
    simp only [List.cons_append] at h
    cases h
    subst hx
    cases hrest : pre' ++ Except.ok r :: post with
    | nil => exact absurd hrest (by simp)
    | cons s2 rest2 =>
      simp only [chainFrom, chainInvoked]
      have hih := ih (fun y hy => hpre y (by simp [hy])) s2 rest2 hrest.symm
      exact ⟨hih.1, by rw [hih.2]; simp⟩

/-- C6.  When the strategies before position k all throw and strategy k
returns the (non-empty, validated) result `r`, the chain returns `r` and
invokes exactly the first k strategies — the later ones are never invoked;
and when every strategy throws, the chain propagates the last error. -/
theorem extraction_chain_first_success (pre post : List StratOutcome)
    (r : List ExtractedInfo) (hr : r ≠ [])
    (hpre : ∀ x ∈ pre, ∃ e, x = Except.error e)
    (s : StratOutcome) (rest : List StratOutcome)
    (hsplit : s :: rest = pre ++ Except.ok r :: post) :
    chainFrom s rest = Except.ok r ∧
    chainInvoked s rest = pre.length + 1 ∧
    chainInvoked s rest + post.length = (s :: rest).length ∧
    (∀ (errs : List String) (e' : String) (s' : StratOutcome)
        (rest' : List StratOutcome),
        s' :: rest' = errs.map Except.error ++ [Except.error e'] →
        chainFrom s' rest' = Except.error e') := by
  have hmain := chainFrom_skips_after_success pre post r hpre s rest hsplit
  refine ⟨hmain.1, hmain.2, ?_, chainFrom_all_errors⟩
  have hlen : (s :: rest).length = pre.length + 1 + post.length := by
    rw [hsplit]
    simp
    omega
  rw [hmain.2, hlen]

/-- C6 witness: a two-strategy chain whose first strategy throws and whose
second yields one fact. -/
theorem extraction_chain_first_success_witness :
    (([⟨"Prj", "Tom", "Blocking", "ctx", 95 / 100⟩] :
        List ExtractedInfo) ≠ []) ∧
    chainFrom (Except.error "no Zoom transcription")
        [Except.ok [⟨"Prj", "Tom", "Blocking", "ctx", 95 / 100⟩]] =
      Except.ok [⟨"Prj", "Tom", "Blocking", "ctx", 95 / 100⟩] :=
  ⟨by simp,
    (extraction_chain_first_success [Except.error "no Zoom transcription"]
      [] [⟨"Prj", "Tom", "Blocking", "ctx", 95 / 100⟩] (by simp)
      (fun x hx => ⟨"no Zoom transcription", by simpa using hx⟩)
      (Except.error "no Zoom transcription")
      [Except.ok [⟨"Prj", "Tom", "Blocking", "ctx", 95 / 100⟩]] rfl).1⟩

/-- C7.  When every strategy completes without error and returns no facts,
the chain returns the empty list (not an error); the Gemini extractor
yields the empty fact list when no validated characters (or no tasks)
remain; and the Event Processor treats the empty list as a normal stop
with no dispatch: `afterExtraction infos = noFacts` exactly when
`infos = []`. -/
theorem extraction_chain_empty_result (s : StratOutcome)
    (rest : List StratOutcome)
    (hall : ∀ x ∈ s :: rest, x = Except.ok ([] : List ExtractedInfo)) :
    chainFrom s rest = Except.ok ([] : List ExtractedInfo) ∧
    (∀ project, geminiFacts project [] = []) ∧
    (∀ project chars, (∀ c ∈ chars, c.tasks = []) →
      geminiFacts project chars = []) ∧
    (∀ infos, afterExtraction infos = RecordingOutcome.noFacts ↔
      infos = []) := by
  refine ⟨?_, ?_, ?_, ?_⟩
  · have hs : s = Except.ok ([] : List ExtractedInfo) := hall s (by simp)
    subst hs
    cases rest <;> rfl
  · intro project
    rfl
  · intro project chars hchars
    induction chars with
    | nil => rfl
    | cons c cs ihc =>
      have hc : c.tasks = [] := hchars c (by simp)
      have hcs := ihc (fun y hy => hchars y (by simp [hy]))
      simp only [geminiFacts, List.map_cons, List.flatten_cons] at hcs ⊢
      rw [hcs]
      simp [factsForChar, hc]
  · intro infos
    cases infos <;> simp [afterExtraction]

/-- C7 witness: a two-strategy chain in which both strategies return the
empty fact list. -/
theorem extraction_chain_empty_result_witness :
    (∀ x ∈ ([Except.ok [], Except.ok []] : List StratOutcome),
      x = Except.ok ([] : List ExtractedInfo)) ∧
    chainFrom (Except.ok ([] : List ExtractedInfo))
        [Except.ok ([] : List ExtractedInfo)] =
      Except.ok ([] : List ExtractedInfo) :=
  ⟨by simp,
    (extraction_chain_empty_result (Except.ok [])
      [Except.ok []] (by simp)).1⟩

/-- C8.  Frame handling of the message callback: an unparseable frame is
dropped as malformed (the handler returns instead of raising); a parsed
frame with `module = build_connection` and `success = false` is dropped
without invoking the Event Processor; and the Event Processor is invoked
exactly for the remaining frames whose `event_type` (or `event`) field is
truthy. -/
theorem frame_handling (m : WsMessage) :
    handleWsMessage none = FrameAction.droppedMalformed ∧
    (m.moduleField = some "build_connection" →
      m.successField = some false →
      handleWsMessage (some m) = FrameAction.droppedConnError) ∧
    (handleWsMessage (some m) = FrameAction.forwarded ↔
      (¬(m.moduleField = some "build_connection" ∧
          m.successField = some false) ∧
       (truthyStr m.eventTypeField = true ∨
        truthyStr m.eventField = true))) := by
  refine ⟨rfl, ?_, ?_⟩
  · intro h1 h2
    simp [handleWsMessage, h1, h2]
  · simp only [handleWsMessage]
    split_ifs with hconn hevt
    · simp [hconn]
    · simp only [Bool.or_eq_true] at hevt
      simp [hconn, hevt]
    · simp only [Bool.or_eq_true] at hevt
      simp [hconn, hevt]

/-- C8 witness: a connection-failure notification frame is dropped without
forwarding. -/
theorem frame_handling_witness :
    handleWsMessage (some ⟨some "build_connection", some false, none,
      some "recording.completed"⟩) = FrameAction.droppedConnError :=
  (frame_handling ⟨some "build_connection", some false, none,
    some "recording.completed"⟩).2.1 rfl rfl

/-- C9.  The Token Provider returns the cached credential, without
contacting the endpoint, exactly under the validity guard
`accessToken present and now < tokenExpiry - 60`; otherwise it contacts
the endpoint, and an unreachable endpoint or a response without a token
makes the call fail with an error. -/
theorem getAccessToken_cache_spec (st : TokenState) (now : Nat)
    (ep : TokenEndpoint) :
    (st.accessToken ≠ "" → now < st.tokenExpiry - 60 →
      getAccessToken st now ep = ⟨Except.ok st.accessToken, st, false⟩) ∧
    (¬(st.accessToken ≠ "" ∧ now < st.tokenExpiry - 60) →
      (getAccessToken st now ep).contacted = true) ∧
    (ep = TokenEndpoint.unreachable →
      ¬(st.accessToken ≠ "" ∧ now < st.tokenExpiry - 60) →
      ∃ msg, (getAccessToken st now ep).result = Except.error msg) ∧
    (ep = TokenEndpoint.noToken →
      ¬(st.accessToken ≠ "" ∧ now < st.tokenExpiry - 60) →
      ∃ msg, (getAccessToken st now ep).result = Except.error msg) := by
  have hiff : (st.accessToken ≠ "" ∧ st.tokenExpiry > now + 60) ↔
      (st.accessToken ≠ "" ∧ now < st.tokenExpiry - 60) := by
    constructor <;> rintro ⟨h1, h2⟩ <;> exact ⟨h1, by omega⟩
  refine ⟨?_, ?_, ?_, ?_⟩
  · intro h1 h2
    simp only [getAccessToken]
    rw [if_pos ⟨h1, by omega⟩]
  · intro hno
    simp only [getAccessToken]
    rw [if_neg (fun hc => hno (hiff.mp hc))]
    cases ep <;> rfl
  · intro hep hno
    subst hep
    simp only [getAccessToken]
    rw [if_neg (fun hc => hno (hiff.mp hc))]
    exact ⟨_, rfl⟩
  · intro hep hno
    subst hep
    simp only [getAccessToken]
    rw [if_neg (fun hc => hno (hiff.mp hc))]
    exact ⟨_, rfl⟩

/-- C9 witness: a cached, still-valid token is returned without contacting
the endpoint even when the endpoint is unreachable. -/
theorem getAccessToken_cache_spec_witness :
    (("tok" : String) ≠ "" ∧ (0 : Nat) < 1000 - 60) ∧
    getAccessToken ⟨"tok", 1000⟩ 0 TokenEndpoint.unreachable =
      ⟨Except.ok "tok", ⟨"tok", 1000⟩, false⟩ :=
  ⟨⟨by decide, by decide⟩,
    (getAccessToken_cache_spec ⟨"tok", 1000⟩ 0
      TokenEndpoint.unreachable).1 (by decide) (by decide)⟩

/-- C10.  A failed refresh (unreachable endpoint or token-less response)
leaves the cached token and expiry unchanged; the cache changes only
through a successful refresh (which stores the new token and
`now + expires_in`) or through `invalidateToken` (which clears it). -/
theorem getAccessToken_error_state_unchanged (st : TokenState) (now : Nat)
    (ep : TokenEndpoint) :
    (∀ msg, (getAccessToken st now ep).result = Except.error msg →
      (getAccessToken st now ep).state = st) ∧
    ((getAccessToken st now ep).state ≠ st →
      ∃ tok expiresIn, ep = TokenEndpoint.token tok expiresIn ∧
        (getAccessToken st now ep).result = Except.ok tok ∧
        (getAccessToken st now ep).state = ⟨tok, now + expiresIn⟩) ∧
    invalidateToken st = ⟨"", 0⟩ := by
  simp only [getAccessToken]
  split_ifs with hc
  · exact ⟨fun msg _ => rfl, fun hne => absurd rfl hne, rfl⟩
  · cases ep with
    | unreachable => exact ⟨fun _ _ => rfl, fun hne => absurd rfl hne, rfl⟩
    | noToken => exact ⟨fun _ _ => rfl, fun hne => absurd rfl hne, rfl⟩
    | token tok expiresIn =>
      exact ⟨fun msg h => Except.noConfusion h,
        fun _ => ⟨tok, expiresIn, rfl, rfl, rfl⟩, rfl⟩

/-- C10 witness: a token-less response leaves the cache untouched. -/
theorem getAccessToken_error_state_unchanged_witness :
    (getAccessToken ⟨"old", 10⟩ 100 TokenEndpoint.noToken).result =
      Except.error "No access token returned from Zoom API" ∧
    (getAccessToken ⟨"old", 10⟩ 100 TokenEndpoint.noToken).state =
      ⟨"old", 10⟩ :=
  ⟨rfl,
    (getAccessToken_error_state_unchanged ⟨"old", 10⟩ 100
      TokenEndpoint.noToken).1 "No access token returned from Zoom API" rfl⟩

end ZoomMiddleware
